import Mathlib

/-!
Shallow embedding of the `no_std_io` binary-serialization core: the offset
reader (`src/reader.rs`), the stream reader (`src/stream/reader.rs`), the
derive code generation for composite writers (`src/macros/src/endian_write.rs`)
and the composite fixtures of the derive test suites
(`src/macros/tests/endian_read.rs`, `src/macros/tests/endian_write.rs`).

Byte buffers are `List Nat`; a byte's value is its residue mod 256, exactly as
for `u8`.  `usize` arithmetic that the source leaves unchecked is taken mod
`2 ^ 64`.  Parts of the crate that are not under `src/` (lib.rs, writer.rs,
the cursor and the read-side code generation) are modelled from the spec, with
their observable behavior pinned by the tests that are under `src/`; each such
definition carries a doc comment saying so.
-/

deriving instance DecidableEq for Except

namespace NoStd

/-- The `usize` modulus: offsets and sizes are 64-bit machine words. -/
def USIZE : Nat := 2 ^ 64

/-- The error taxonomy (`Error` in lib.rs; the variants and their fields are
pinned by every construction site in src/).  Fields are positional:
`InvalidSize wanted_size offset data_len` and
`InvalidAlignment wanted_size source_size source_offset`. -/
inductive Error where
  | InvalidSize (wanted_size offset data_len : Nat)
  | InvalidAlignment (wanted_size source_size source_offset : Nat)
  | InvalidRead (message : String)
deriving DecidableEq, Repr

/-- `ReadOutput<T>`: a decoded value together with the count of bytes it
consumed. -/
structure ReadOutput (α : Type) where
  data : α
  read_bytes : Nat
deriving DecidableEq, Repr

/-- The result of an operation that can also hit a Rust panic (an
out-of-range slice index after wrapping `usize` arithmetic, or a failed
`unwrap`): `crash` is the panic outcome. -/
inductive Outcome (α : Type) where
  | ok (val : α)
  | err (e : Error)
  | crash
deriving DecidableEq, Repr

/-- Modelled from the spec: `add_error_context` lives in lib.rs, which is not
under src/.  Spec §3/§7: a frame receiving a nested error adds its own base
offset to the error's offset field and reports its own buffer length; this is
pinned by the reader.rs tests `should_bubble_up_error_offsets` (offsets add
up) and `should_return_error_if_size_is_too_large_for_offset` (`data_len`
becomes the outer length), while `InvalidRead` passes through verbatim
(`should_bubble_up_custom_errors`). -/
def add_error_context (result : Except Error α) (offset data_len : Nat) :
    Except Error α :=
  match result with
  | .error (.InvalidSize wanted o _) =>
      .error (.InvalidSize wanted (o + offset) data_len)
  | .error (.InvalidAlignment wanted ss so) =>
      .error (.InvalidAlignment wanted ss (so + offset))
  | other => other

/-- `Reader::get_slice_at_offset` (reader.rs:18-26): the tail slice from
`offset`, `[]` when the offset is at or past the end. -/
def get_slice_at_offset (data : List Nat) (offset : Nat) : List Nat :=
  if offset ≥ data.length then [] else data.drop offset

/-- `Reader::get_slice_of_size` (reader.rs:33-46).  `offset + size` is
unchecked `usize` arithmetic, so it wraps mod `2 ^ 64`, and the final
`&data[offset..offset_end]` panics (`Outcome.crash`) when the wrapped end lies
before the start. -/
def get_slice_of_size (data : List Nat) (offset size : Nat) :
    Outcome (List Nat) :=
  let offset_end := (offset + size) % USIZE
  if data.length < offset_end then
    .err (.InvalidSize size offset data.length)
  else if offset ≤ offset_end then
    .ok ((data.drop offset).take (offset_end - offset))
  else
    .crash

/-- `Reader::get_sized_slice` (reader.rs:50-64): the same bounds check with
the target type's size `tSize` in place of an explicit size. -/
def get_sized_slice (tSize : Nat) (data : List Nat) (offset : Nat) :
    Outcome (List Nat) :=
  let offset_end := (offset + tSize) % USIZE
  if data.length < offset_end then
    .err (.InvalidSize tSize offset data.length)
  else if offset ≤ offset_end then
    .ok ((data.drop offset).take (offset_end - offset))
  else
    .crash

/-- `Reader::get_transmutable` (reader.rs:70-85).  The alignment test
performed by `safe_transmute::transmute_many_permissive` depends on the
machine address of the slice, so the embedding takes the buffer's base
address `base` as an explicit parameter: the slice at `offset` starts at
address `base + offset`, and for a type of alignment `tAlign` the transmute
succeeds exactly when that address is a multiple of `tAlign`.  The
trivially-transmutable value is represented by its byte slice. -/
def get_transmutable (tAlign tSize base : Nat) (data : List Nat)
    (offset : Nat) : Outcome (List Nat) :=
  match get_sized_slice tSize data offset with
  | .err e => .err e
  | .crash => .crash
  | .ok bytes =>
      if (base + offset) % tAlign = 0 then .ok bytes
      else .err (.InvalidAlignment tSize bytes.length offset)

/-- `Reader::read` (reader.rs:89-91): copies the transmuted value. -/
def read_copy (tAlign tSize base : Nat) (data : List Nat) (offset : Nat) :
    Outcome (List Nat) :=
  get_transmutable tAlign tSize base data offset

/-- The `EndianRead` capability (spec §4.3): one decoder per byte order, each
taking the remaining bytes and returning the value with its consumed-byte
count. -/
structure EndianReadCodec (α : Type) where
  try_read_le : List Nat → Except Error (ReadOutput α)
  try_read_be : List Nat → Except Error (ReadOutput α)

/-- Common body of `Reader::read_le_with_output` / `read_be_with_output`
(reader.rs:105-108, 137-140): slice from the offset to the end, delegate to
the codec, re-anchor the error. -/
def read_with_output (r : List Nat → Except Error (ReadOutput α))
    (data : List Nat) (offset : Nat) : Except Error (ReadOutput α) :=
  add_error_context (r (get_slice_at_offset data offset)) offset data.length

/-- `Reader::read_le_with_output` (reader.rs:105). -/
def read_le_with_output (c : EndianReadCodec α) (data : List Nat)
    (offset : Nat) : Except Error (ReadOutput α) :=
  read_with_output c.try_read_le data offset

/-- `Reader::read_be_with_output` (reader.rs:137). -/
def read_be_with_output (c : EndianReadCodec α) (data : List Nat)
    (offset : Nat) : Except Error (ReadOutput α) :=
  read_with_output c.try_read_be data offset

/-- `Reader::read_le` (reader.rs:116-119). -/
def read_le (c : EndianReadCodec α) (data : List Nat) (offset : Nat) :
    Except Error α :=
  match read_le_with_output c data offset with
  | .error e => .error e
  | .ok out => .ok out.data

/-- `Reader::read_be` (reader.rs:148-151). -/
def read_be (c : EndianReadCodec α) (data : List Nat) (offset : Nat) :
    Except Error α :=
  match read_be_with_output c data offset with
  | .error e => .error e
  | .ok out => .ok out.data

/-- Little-endian byte composition, `uN::from_le_bytes`: the first byte is
least significant. -/
def le_decode : List Nat → Nat
  | [] => 0
  | b :: rest => b % 256 + 256 * le_decode rest

/-- Little-endian byte decomposition, `uN::to_le_bytes`. -/
def le_encode : Nat → Nat → List Nat
  | 0, _ => []
  | w + 1, v => v % 256 :: le_encode w (v / 256)

/-- Modelled from the spec: the primitive `EndianRead` implementations live in
lib.rs, which is not under src/.  Spec §4.3: statically sized, direct
byte-order conversion, never reading past the slice, with failure offsets
relative to the start of the slice; the `wanted_size` being the type's width
is pinned by the reader.rs tests.  `w` is the width in bytes and `le` selects
the byte order. -/
def prim_try_read (w : Nat) (le : Bool) (bytes : List Nat) :
    Except Error (ReadOutput Nat) :=
  if bytes.length < w then .error (.InvalidSize w 0 bytes.length)
  else
    .ok ⟨if le then le_decode (bytes.take w)
         else le_decode (bytes.take w).reverse, w⟩

/-- The codec of an unsigned primitive of width `w`. -/
def primCodec (w : Nat) : EndianReadCodec Nat :=
  ⟨prim_try_read w true, prim_try_read w false⟩

/-- The `u32` codec. -/
def u32Codec : EndianReadCodec Nat := primCodec 4

/-- A read stream: the buffer plus the cursor index.  This is the
`StreamContainer` with its `Reader` and `Cursor` impls; cursor.rs is not under
src/, so the cursor operations below are modelled from spec §4.4. -/
structure StreamState where
  data : List Nat
  index : Nat
deriving DecidableEq, Repr

/-- `Cursor::increment_by` (spec §4.4). -/
def increment_by (s : StreamState) (n : Nat) : StreamState :=
  ⟨s.data, s.index + n⟩

/-- Modelled from the spec: `Cursor::swap_incremented_index` (cursor.rs is not
under src/); spec §4.4 describes the atomic read-then-advance helper that
returns the pre-increment index while moving the position forward by `n`. -/
def swap_incremented_index (s : StreamState) (n : Nat) : Nat × StreamState :=
  (s.index, ⟨s.data, s.index + n⟩)

/-- Common body of `StreamReader::read_stream_le` / `read_stream_be`
(stream/reader.rs:28-33, 81-86): read at the current index and advance by the
consumed count only on success. -/
def stream_read (r : List Nat → Except Error (ReadOutput α))
    (s : StreamState) : Except Error α × StreamState :=
  match read_with_output r s.data s.index with
  | .error e => (.error e, s)
  | .ok out => (.ok out.data, increment_by s out.read_bytes)

/-- `StreamReader::read_stream_le` (stream/reader.rs:28). -/
def read_stream_le (c : EndianReadCodec α) (s : StreamState) :
    Except Error α × StreamState :=
  stream_read c.try_read_le s

/-- `StreamReader::read_stream_be` (stream/reader.rs:81). -/
def read_stream_be (c : EndianReadCodec α) (s : StreamState) :
    Except Error α × StreamState :=
  stream_read c.try_read_be s

/-- `StreamReader::read_stream` (stream/reader.rs:14-17): swap-advance the
cursor by the type's size, then the plain transmuting read at the returned
pre-increment index. -/
def read_stream (tAlign tSize base : Nat) (s : StreamState) :
    Outcome (List Nat) × StreamState :=
  let p := swap_incremented_index s tSize
  (read_copy tAlign tSize base s.data p.1, p.2)

/-- `StreamReader::default_read_stream` (stream/reader.rs:21-24): like
`read_stream` but an error becomes the default value `dflt` (a panic still
propagates). -/
def default_read_stream (tAlign tSize base : Nat) (dflt : List Nat)
    (s : StreamState) : Outcome (List Nat) × StreamState :=
  let p := swap_incremented_index s tSize
  (match read_copy tAlign tSize base s.data p.1 with
   | .ok v => .ok v
   | .err _ => .ok dflt
   | .crash => .crash, p.2)

/-- `StreamReader::default_read_stream_le` (stream/reader.rs:37-40):
swap-advance by the type's static size `tSize`, then `default_read_le` at the
returned pre-increment index. -/
def default_read_stream_le (tSize : Nat) (dflt : α) (c : EndianReadCodec α)
    (s : StreamState) : α × StreamState :=
  let p := swap_incremented_index s tSize
  (match read_le_with_output c s.data p.1 with
   | .ok out => out.data
   | .error _ => dflt, p.2)

/-- `StreamReader::default_read_stream_be` (stream/reader.rs:90-93). -/
def default_read_stream_be (tSize : Nat) (dflt : α) (c : EndianReadCodec α)
    (s : StreamState) : α × StreamState :=
  let p := swap_incremented_index s tSize
  (match read_be_with_output c s.data p.1 with
   | .ok out => out.data
   | .error _ => dflt, p.2)

/-- `Reader::read_byte_vec` (reader.rs:166-168): an exact-size raw slice,
copied. -/
def read_byte_vec (data : List Nat) (offset size : Nat) : Outcome (List Nat) :=
  get_slice_of_size data offset size

/-- `StreamReader::read_byte_stream` (stream/reader.rs:133-136): swap-advance
the cursor by the explicit size, then the byte read at the returned
pre-increment index. -/
def read_byte_stream (s : StreamState) (size : Nat) :
    Outcome (List Nat) × StreamState :=
  let p := swap_incremented_index s size
  (read_byte_vec s.data p.1 size, p.2)

/-- Common body of `Reader::read_array_le` / `read_array_be`
(reader.rs:183-199, 216-232): decode `n` elements, the working offset
advancing by each element's consumed count, aborting on the first failing
element with that element's error. -/
def array_read_core (r : List Nat → Except Error (ReadOutput α))
    (data : List Nat) : Nat → Nat → Except Error (List α)
  | 0, _ => .ok []
  | n + 1, offset =>
    match read_with_output r data offset with
    | .error e => .error e
    | .ok out =>
      match array_read_core r data n (offset + out.read_bytes) with
      | .error e => .error e
      | .ok rest => .ok (out.data :: rest)

/-- `Reader::read_array_le` (reader.rs:183). -/
def read_array_le (c : EndianReadCodec α) (data : List Nat) (n offset : Nat) :
    Except Error (List α) :=
  array_read_core c.try_read_le data n offset

/-- `Reader::read_array_be` (reader.rs:216). -/
def read_array_be (c : EndianReadCodec α) (data : List Nat) (n offset : Nat) :
    Except Error (List α) :=
  array_read_core c.try_read_be data n offset

/-- Loop body of `StreamReader::read_array_stream_le` / `read_array_stream_be`
(stream/reader.rs:46-66, 99-119): the cursor stays put while `read_bytes`
accumulates the consumed counts of the elements read so far. -/
def array_loop_core (r : List Nat → Except Error (ReadOutput α))
    (data : List Nat) (index : Nat) : Nat → Nat → Except Error (List α × Nat)
  | 0, read_bytes => .ok ([], read_bytes)
  | n + 1, read_bytes =>
    match read_with_output r data (index + read_bytes) with
    | .error e => .error e
    | .ok out =>
      match array_loop_core r data index n (read_bytes + out.read_bytes) with
      | .error e => .error e
      | .ok p => .ok (out.data :: p.1, p.2)

/-- Tail of the stream array reads: on success only, the cursor advances once
by the accumulated consumed-byte count. -/
def array_stream_core (r : List Nat → Except Error (ReadOutput α)) (n : Nat)
    (s : StreamState) : Except Error (List α) × StreamState :=
  match array_loop_core r s.data s.index n 0 with
  | .error e => (.error e, s)
  | .ok p => (.ok p.1, increment_by s p.2)

/-- `StreamReader::read_array_stream_le` (stream/reader.rs:46). -/
def read_array_stream_le (c : EndianReadCodec α) (n : Nat) (s : StreamState) :
    Except Error (List α) × StreamState :=
  array_stream_core c.try_read_le n s

/-- `StreamReader::read_array_stream_be` (stream/reader.rs:99). -/
def read_array_stream_be (c : EndianReadCodec α) (n : Nat) (s : StreamState) :
    Except Error (List α) × StreamState :=
  array_stream_core c.try_read_be n s

/-- The cumulative consumed-byte count of `n` successive element reads
starting at `offset` (irrelevant — 0 — from the first failing element on). -/
def array_consumed (r : List Nat → Except Error (ReadOutput α))
    (data : List Nat) : Nat → Nat → Nat
  | 0, _ => 0
  | n + 1, offset =>
    match read_with_output r data offset with
    | .error _ => 0
    | .ok out => out.read_bytes + array_consumed r data n (offset + out.read_bytes)

/-- The working offset after one more element read: advanced by the consumed
count on success, unchanged on failure. -/
def elem_step (r : List Nat → Except Error (ReadOutput α)) (data : List Nat)
    (offset : Nat) : Nat :=
  match read_with_output r data offset with
  | .ok out => offset + out.read_bytes
  | .error _ => offset

/-- The working offset in front of the `k`-th element of a sequential array
read starting at `offset`. -/
def elem_offset (r : List Nat → Except Error (ReadOutput α)) (data : List Nat)
    (offset : Nat) : Nat → Nat
  | 0 => offset
  | k + 1 => elem_step r data (elem_offset r data offset k)

/-- A write stream over a destination slice: the `StreamContainer::new(dst)`
created by every generated `try_write_le/be`
(macros/src/endian_write.rs:80). -/
structure WStream where
  data : List Nat
  index : Nat
deriving DecidableEq, Repr

/-- `Cursor::increment_by` on the write stream. -/
def wincrement_by (s : WStream) (n : Nat) : WStream :=
  ⟨s.data, s.index + n⟩

/-- Modelled from the spec: the write-path error re-anchoring (writer.rs is
not under src/).  Spec §4.2 has a field's `InvalidSize` re-raised against the
destination; the exact fields are pinned by
`should_error_if_there_are_not_enough_bytes` in macros/tests/endian_write.rs,
which observes the failing field's own `wanted_size` and slice-relative
offset together with the full destination's length as `data_len`. -/
def write_error_context (result : Except Error β) (data_len : Nat) :
    Except Error β :=
  match result with
  | .error (.InvalidSize wanted o _) => .error (.InvalidSize wanted o data_len)
  | other => other

/-- Modelled from the spec: `StreamWriter::write_stream_le/be`
(stream/writer.rs is not under src/).  Spec §4.4: the value's writer `tw`
(its `try_write_le` or `try_write_be`, the value already applied) runs
against the bytes from the cursor onward; on success the written tail
replaces them and the cursor advances by the bytes written; on failure the
stream is unchanged and the error is re-anchored to the destination. -/
def write_stream (tw : List Nat → Except Error (List Nat × Nat))
    (s : WStream) : Except Error Nat × WStream :=
  match write_error_context (tw (s.data.drop s.index)) s.data.length with
  | .error e => (.error e, s)
  | .ok p => (.ok p.2, ⟨s.data.take s.index ++ p.1, s.index + p.2⟩)

/-- The byte-order encoding of a primitive of width `w`. -/
def prim_enc (w : Nat) (le : Bool) (v : Nat) : List Nat :=
  if le then le_encode w v else (le_encode w v).reverse

/-- Modelled from the spec: the primitive `EndianWrite` implementations live
in lib.rs, which is not under src/.  Spec §4.3: `get_size` is the type's
width `w`; the write fails `InvalidSize` when the destination is shorter than
`w` (offsets relative to the destination slice), otherwise replaces the first
`w` bytes with the value's byte-order encoding and reports `w` bytes
written. -/
def prim_try_write (w : Nat) (le : Bool) (v : Nat) (dst : List Nat) :
    Except Error (List Nat × Nat) :=
  if dst.length < w then .error (.InvalidSize w 0 dst.length)
  else .ok (prim_enc w le v ++ dst.drop w, w)

/-- A structural field annotation as written in the source of a composite
type: the `pad_before: N` attribute the code generation documents, or a
`backtrace: N` annotation. -/
inductive FieldArg where
  | padBefore (n : Nat)
  | backtraceArg (n : Nat)
deriving DecidableEq, Repr

/-- The parsed per-field arguments.  The exhaustive pattern
`Some(MacroArgs { pad_before }) => pad_before` in
macros/src/endian_write.rs:13-16 pins the struct to exactly the one field
`pad_before`. -/
structure FieldArgs where
  pad_before : Nat
deriving DecidableEq, Repr

/-- Modelled from the spec: attribute parsing for the generated codecs
(macros/src/macro_args.rs is not under src/).  `darling`'s
`from_attributes(..).ok()` yields the parsed `pad_before` for a recognized
annotation and `None` for one it does not recognize — and `FieldArgs` has no
`backtrace` field, so a `backtrace` annotation is unrecognized. -/
def parse_field_args : Option FieldArg → Option FieldArgs
  | none => some ⟨0⟩
  | some (.padBefore n) => some ⟨n⟩
  | some (.backtraceArg _) => none

/-- The pad applied by the generated code for one field: the parsed
`pad_before`, or 0 when parsing fails
(macros/src/endian_write.rs:13-16, 44-49). -/
def effective_pad (attr : Option FieldArg) : Nat :=
  match parse_field_args attr with
  | some args => args.pad_before
  | none => 0

/-- `create_get_size_field` (macros/src/endian_write.rs:11-37) summed over
the struct's fields (endian_write.rs:121-125): each field contributes its
effective pad plus its own `get_size`; a field is `(annotation, size)`. -/
def generated_get_size (fields : List (Option FieldArg × Nat)) : Nat :=
  fields.foldl (fun size f => size + effective_pad f.1 + f.2) 0

/-- `create_write_field` (macros/src/endian_write.rs:39-65) iterated over the
fields: advance the stream by the effective pad, then `write_stream_le/be`
the field's value, `?`-propagating its error.  A field is
`(annotation, value.try_write with the value applied)`. -/
def write_fields :
    List (Option FieldArg × (List Nat → Except Error (List Nat × Nat))) →
    WStream → Except Error WStream
  | [], s => .ok s
  | f :: rest, s =>
    match write_stream f.2 (wincrement_by s (effective_pad f.1)) with
    | (.error e, _) => .error e
    | (.ok _, s') => write_fields rest s'

/-- `create_write_method_impl` (macros/src/endian_write.rs:67-86): stream over
`dst` from index 0, write every field in declaration order, return
`Cursor::get_index` as the bytes written.  There is no up-front size
check. -/
def generated_try_write
    (fields : List (Option FieldArg × (List Nat → Except Error (List Nat × Nat))))
    (dst : List Nat) : Except Error (List Nat × Nat) :=
  match write_fields fields ⟨dst, 0⟩ with
  | .error e => .error e
  | .ok s => .ok (s.data, s.index)

/-- The composite fixture `Test { first: u8, second: u32 }` of
macros/tests/endian_read.rs:10-14 and macros/tests/endian_write.rs:10-14. -/
structure TestStruct where
  first : Nat
  second : Nat
deriving DecidableEq, Repr

/-- `Test::get_size()` as generated: two unannotated fields of sizes 1
and 4. -/
def test_get_size : Nat := generated_get_size [(none, 1), (none, 4)]

/-- `Test::try_write_le/be` as generated from its two fields. -/
def test_try_write (le : Bool) (v : TestStruct) (dst : List Nat) :
    Except Error (List Nat × Nat) :=
  generated_try_write
    [(none, prim_try_write 1 le v.first), (none, prim_try_write 4 le v.second)]
    dst

/-- Modelled from the spec: the derive-generated `EndianRead` for the
composite `Test` (macros/src/endian_read.rs is not under src/).  Spec §6:
fields are decoded in declaration order, each consuming `read_bytes` of the
remaining input, the output's count being their sum; a field's error is
propagated as the field's decode returned it, which is pinned by
`should_error_if_there_are_not_enough_bytes` in macros/tests/endian_read.rs
(the nested `u32` failure keeps its slice-relative offset 0). -/
def test_try_read (le : Bool) (bytes : List Nat) :
    Except Error (ReadOutput TestStruct) :=
  match prim_try_read 1 le bytes with
  | .error e => .error e
  | .ok o1 =>
    match prim_try_read 4 le (bytes.drop o1.read_bytes) with
    | .error e => .error e
    | .ok o2 => .ok ⟨⟨o1.data, o2.data⟩, o1.read_bytes + o2.read_bytes⟩

/-- The `EndianRead` codec of the `Test` fixture. -/
def testCodec : EndianReadCodec TestStruct :=
  ⟨test_try_read true, test_try_read false⟩

/-- `ListContainer::<u32>::get_size` (macros/tests/endian_write.rs:20-28):
the sum of the items' sizes plus 1 for the count byte. -/
def lc_get_size (l : List Nat) : Nat :=
  l.foldl (fun size _ => size + 4) 0 + 1

/-- The item loop of `ListContainer::<u32>::try_write_le/be`
(macros/tests/endian_write.rs:44-46, 65-67): each item through
`write_stream_le/be`, `?`-propagating. -/
def lc_write_items (le : Bool) : List Nat → WStream → Except Error WStream
  | [], s => .ok s
  | x :: rest, s =>
    match write_stream (prim_try_write 4 le x) s with
    | (.error e, _) => .error e
    | (.ok _, s') => lc_write_items le rest s'

/-- `ListContainer::<u32>::try_write_le/be`
(macros/tests/endian_write.rs:30-49, 51-70): an up-front size check against
`get_size`, then `self.0.len().try_into::<u8>().unwrap()` (a panic when the
list is longer than 255), then the count byte and the items through a
stream; the bytes written are the final index. -/
def lc_try_write (le : Bool) (l : List Nat) (dst : List Nat) :
    Outcome (List Nat × Nat) :=
  if dst.length < lc_get_size l then
    .err (.InvalidSize (lc_get_size l) 0 dst.length)
  else if 255 < l.length then .crash
  else
    match write_stream (prim_try_write 1 le l.length) ⟨dst, 0⟩ with
    | (.error e, _) => .err e
    | (.ok _, s) =>
      match lc_write_items le l s with
      | .error e => .err e
      | .ok s' => .ok (s'.data, s'.index)

/-- The item loop of `ListContainer::<u32>::try_read_le/be`
(macros/tests/endian_read.rs:34-37, 59-62): `count` items through
`read_stream_le/be`, `?`-propagating, pushed in read order. -/
def lc_read_items (le : Bool) :
    Nat → StreamState → Except Error (List Nat × StreamState)
  | 0, s => .ok ([], s)
  | n + 1, s =>
    match stream_read (prim_try_read 4 le) s with
    | (.error e, _) => .error e
    | (.ok v, s') =>
      match lc_read_items le n s' with
      | .error e => .error e
      | .ok p => .ok (v :: p.1, p.2)

/-- `ListContainer::<u32>::try_read_le/be`
(macros/tests/endian_read.rs:20-43, 45-68): an empty input fails
`InvalidSize{1, 0, 0}`; otherwise the first byte is the count and the items
are streamed from the remainder, the consumed count being the stream index
plus 1. -/
def lc_try_read (le : Bool) (bytes : List Nat) :
    Except Error (ReadOutput (List Nat)) :=
  if bytes.length = 0 then .error (.InvalidSize 1 0 0)
  else
    match lc_read_items le (bytes.headD 0) ⟨bytes.drop 1, 0⟩ with
    | .error e => .error e
    | .ok p => .ok ⟨p.1, p.2.index + 1⟩

/-- The `EndianRead` codec of the `ListContainer<u32>` fixture. -/
def lcCodec : EndianReadCodec (List Nat) :=
  ⟨lc_try_read true, lc_try_read false⟩

/-- The concatenated byte-order encodings of a list of `u32` items. -/
def items_enc (le : Bool) (l : List Nat) : List Nat :=
  (l.map (prim_enc 4 le)).flatten

/-! ## Helper lemmas -/

theorem get_slice_at_offset_eq_drop (data : List Nat) (offset : Nat) :
    get_slice_at_offset data offset = data.drop offset := by
  unfold get_slice_at_offset
  split
  · exact (List.drop_eq_nil_of_le (by omega)).symm
  · rfl

theorem add_error_context_ok (a : α) (offset data_len : Nat) :
    add_error_context (.ok a) offset data_len = .ok a := rfl

theorem le_encode_length (w v : Nat) : (le_encode w v).length = w := by
  induction w generalizing v with
  | zero => rfl
  | succ n ih => simp [le_encode, ih]

theorem prim_enc_length (w : Nat) (le : Bool) (v : Nat) :
    (prim_enc w le v).length = w := by
  cases le <;> simp [prim_enc, le_encode_length]

theorem prim_enc_one (le : Bool) (v : Nat) : prim_enc 1 le v = [v % 256] := by
  cases le <;> simp [prim_enc, le_encode]

theorem le_decode_encode (w v : Nat) : le_decode (le_encode w v) = v % 256 ^ w := by
  induction w generalizing v with
  | zero => simp [le_encode, le_decode, Nat.mod_one]
  | succ n ih =>
    rw [pow_succ']
    rw [Nat.mod_mul]
    simp [le_encode, le_decode, ih, Nat.mod_mod_of_dvd]

theorem prim_read_enc (w : Nat) (le : Bool) (v : Nat) (rest : List Nat) :
    prim_try_read w le (prim_enc w le v ++ rest) = .ok ⟨v % 256 ^ w, w⟩ := by
  have hlen : (prim_enc w le v).length = w := prim_enc_length w le v
  have htake : (prim_enc w le v ++ rest).take w = prim_enc w le v :=
    List.take_left' hlen
  unfold prim_try_read
  rw [if_neg (by simp [hlen])]
  rw [htake]
  cases le <;> simp [prim_enc, le_decode_encode]

theorem prim_write_ok (w : Nat) (le : Bool) (v : Nat) (dst : List Nat)
    (h : w ≤ dst.length) :
    prim_try_write w le v dst = .ok (prim_enc w le v ++ dst.drop w, w) := by
  unfold prim_try_write
  rw [if_neg (by omega)]

theorem write_stream_ok (tw : List Nat → Except Error (List Nat × Nat))
    (s : WStream) (tail : List Nat) (n : Nat)
    (h : tw (s.data.drop s.index) = .ok (tail, n)) :
    write_stream tw s = (.ok n, ⟨s.data.take s.index ++ tail, s.index + n⟩) := by
  unfold write_stream write_error_context
  rw [h]

theorem write_stream_err_size (tw : List Nat → Except Error (List Nat × Nat))
    (s : WStream) (w o d : Nat)
    (h : tw (s.data.drop s.index) = .error (.InvalidSize w o d)) :
    write_stream tw s = (.error (.InvalidSize w o s.data.length), s) := by
  unfold write_stream write_error_context
  rw [h]

theorem items_enc_nil (le : Bool) : items_enc le [] = [] := rfl

theorem items_enc_cons (le : Bool) (x : Nat) (xs : List Nat) :
    items_enc le (x :: xs) = prim_enc 4 le x ++ items_enc le xs := by
  simp [items_enc]

theorem items_enc_length (le : Bool) (l : List Nat) :
    (items_enc le l).length = 4 * l.length := by
  induction l with
  | nil => rfl
  | cons x xs ih => simp [items_enc_cons, prim_enc_length, ih]; omega

theorem lc_get_size_eq (l : List Nat) : lc_get_size l = 4 * l.length + 1 := by
  have aux : ∀ (l : List Nat) (a : Nat),
      l.foldl (fun size _ => size + 4) a = a + 4 * l.length := by
    intro l
    induction l with
    | nil => intro a; simp
    | cons x xs ih => intro a; simp [List.foldl_cons, ih]; omega
  unfold lc_get_size
  rw [aux]
  omega

theorem list_len4 {dst : List Nat} (h : dst.length = 4) :
    ∃ a b c d, dst = [a, b, c, d] := by
  cases dst with
  | nil => exact absurd h (by simp)
  | cons a t =>
  cases t with
  | nil => exact absurd h (by simp)
  | cons b t =>
  cases t with
  | nil => exact absurd h (by simp)
  | cons c t =>
  cases t with
  | nil => exact absurd h (by simp)
  | cons d t =>
  cases t with
  | nil => exact ⟨a, b, c, d, rfl⟩
  | cons e t => exact absurd h (by simp only [List.length_cons]; omega)

/-! ## Claim theorems -/

/-- C8: decoding `[0xaa, 0xbb, 0xcc, 0xdd, 0xee]` as the composite
`{first: u8, second: u32}` yields `{first: 0xaa, second: 0xeeddccbb}` little
endian and `{first: 0xaa, second: 0xbbccddee}` big endian, and decoding
`[0x02, 0x11, 0x22, 0x33, 0x44, 0xaa, 0xbb, 0xcc, 0xdd]` as a length-prefixed
`u32` list little endian yields `[0x44332211, 0xddccbbaa]`. -/
theorem C8_concrete_decodes :
    read_le testCodec [0xaa, 0xbb, 0xcc, 0xdd, 0xee] 0 = .ok ⟨0xaa, 0xeeddccbb⟩ ∧
    read_be testCodec [0xaa, 0xbb, 0xcc, 0xdd, 0xee] 0 = .ok ⟨0xaa, 0xbbccddee⟩ ∧
    read_le lcCodec [0x02, 0x11, 0x22, 0x33, 0x44, 0xaa, 0xbb, 0xcc, 0xdd] 0 =
      .ok [0x44332211, 0xddccbbaa] := by
  refine ⟨by decide, by decide, by decide⟩

/-- C6: `read_stream`, `default_read_stream`, `default_read_stream_le/be` and
`read_byte_stream` advance the cursor before performing the read — by the
type's static size `tSize` or by the explicit `size` — so from every stream
state the index ends at its old value plus that fixed amount, whatever the
read's outcome (in particular even when it fails, and for
`default_read_stream_le/be` on a variable-size type by `tSize` rather than by
the bytes actually consumed). -/
theorem C6_pre_advance : ∀ (s : StreamState) (tAlign tSize base size : Nat)
    (dflt : List Nat) (α : Type) (d : α) (c : EndianReadCodec α),
    (read_stream tAlign tSize base s).2.index = s.index + tSize ∧
    (default_read_stream tAlign tSize base dflt s).2.index = s.index + tSize ∧
    (default_read_stream_le tSize d c s).2.index = s.index + tSize ∧
    (default_read_stream_be tSize d c s).2.index = s.index + tSize ∧
    (read_byte_stream s size).2.index = s.index + size := by
  intro s tAlign tSize base size dflt α d c
  exact ⟨rfl, rfl, rfl, rfl, rfl⟩

/-- C10 fails on the code: `get_slice_of_size` does not always return either
an exact-size slice or `InvalidSize` — when `offset + size` overflows the
64-bit offset space, the wrapped end of the range lies before its start and
the slice operation panics.  Concretely, on an 8-byte buffer with offset 4
and size `2^64 - 4` the operation crashes instead of returning a slice or an
error. -/
theorem C10_cex_overflow_crash :
    get_slice_of_size [0, 1, 2, 3, 4, 5, 6, 7] 4 (USIZE - 4) = .crash ∧
    (∀ v : List Nat,
      get_slice_of_size [0, 1, 2, 3, 4, 5, 6, 7] 4 (USIZE - 4) ≠ .ok v) ∧
    (∀ e : Error,
      get_slice_of_size [0, 1, 2, 3, 4, 5, 6, 7] 4 (USIZE - 4) ≠ .err e) := by
  have h : get_slice_of_size [0, 1, 2, 3, 4, 5, 6, 7] 4 (USIZE - 4) = .crash := by
    decide
  refine ⟨h, fun v hv => ?_, fun e he => ?_⟩
  · rw [h] at hv; cases hv
  · rw [h] at he; cases he

/-- C10 (amended): `get_slice_at_offset(offset)` returns the empty slice
whenever `offset ≥ len` and never fails; and as long as `offset + size` does
not overflow the 64-bit offset space, `get_slice_of_size(offset, size)`
either returns a slice of exactly `size` bytes or the error
`InvalidSize{wanted_size: size, offset, data_len: len}` — but an overflowing
`offset + size` can instead panic (see the counterexample). -/
theorem C10_amended_slice_safety : ∀ (data : List Nat) (offset size : Nat),
    (data.length ≤ offset → get_slice_at_offset data offset = []) ∧
    (data.length < USIZE →
      (offset + size ≤ data.length →
        get_slice_of_size data offset size = .ok ((data.drop offset).take size) ∧
        ((data.drop offset).take size).length = size) ∧
      (data.length < offset + size → offset + size < USIZE →
        get_slice_of_size data offset size =
          .err (.InvalidSize size offset data.length))) := by
  intro data offset size
  refine ⟨fun h => ?_, fun hfit => ⟨fun hle => ?_, fun hgt hnov => ?_⟩⟩
  · unfold get_slice_at_offset
    rw [if_pos (by omega)]
  · have hmod : (offset + size) % USIZE = offset + size :=
      Nat.mod_eq_of_lt (by omega)
    constructor
    · unfold get_slice_of_size
      simp only [hmod]
      rw [if_neg (by omega), if_pos (by omega)]
      simp
    · simp only [List.length_take, List.length_drop]
      omega
  · have hmod : (offset + size) % USIZE = offset + size :=
      Nat.mod_eq_of_lt (by omega)
    unfold get_slice_of_size
    simp only [hmod]
    rw [if_pos (by omega)]

/-- Witness for C10 (amended) at concrete inputs: an in-bounds request on an
8-byte buffer returns the 4-byte sub-slice, an out-of-bounds one the
`InvalidSize` error, and an offset past the end the empty slice. -/
theorem C10_witness_slice_safety :
    get_slice_at_offset [1, 2, 3] 7 = [] ∧
    get_slice_of_size [1, 2, 3, 4, 5, 6, 7, 8] 4 4 = .ok [5, 6, 7, 8] ∧
    get_slice_of_size [1, 2, 3, 4, 5, 6, 7, 8] 6 4 =
      .err (.InvalidSize 4 6 8) := by
  refine ⟨(C10_amended_slice_safety [1, 2, 3] 7 0).1 (by decide), ?_, ?_⟩
  · have h := ((C10_amended_slice_safety [1, 2, 3, 4, 5, 6, 7, 8] 4 4).2
      (by decide)).1 (by decide)
    simpa using h.1
  · exact ((C10_amended_slice_safety [1, 2, 3, 4, 5, 6, 7, 8] 6 4).2
      (by decide)).2 (by decide) (by decide)

/-- C2 fails on the code: the code-generation layer only recognizes
`pad_before`.  A two-byte field annotated `backtrace: 2` after a two-byte
field gives `get_size() = 4`, not `4 - 2 = 2` as the claim's size subtraction
demands, and the generated write emits the annotated field right after the
previous one (4 bytes written, no cursor rewind and no overlap). -/
theorem C2_cex_backtrace :
    generated_get_size [(none, 2), (some (.backtraceArg 2), 2)] = 4 ∧
    generated_get_size [(none, 2), (some (.backtraceArg 2), 2)] ≠ 2 ∧
    generated_try_write
      [(none, prim_try_write 2 true 0x2211),
       (some (.backtraceArg 2), prim_try_write 2 true 0x4433)]
      [9, 9, 9, 9] = .ok ([0x11, 0x22, 0x33, 0x44], 4) := by
  refine ⟨by decide, by decide, by decide⟩

/-- C2 (amended): a `backtrace: N` annotation is not supported by the
code-generation layer — its parsed argument struct holds only `pad_before`,
so the annotation fails to parse and the field is treated exactly like an
unannotated field: nothing is subtracted from `get_size` accounting and the
cursor is never rewound, in any generated composite. -/
theorem C2_amended_backtrace_ignored : ∀ n : Nat,
    effective_pad (some (.backtraceArg n)) = effective_pad none ∧
    (∀ (pre post : List (Option FieldArg × Nat)) (sz : Nat),
      generated_get_size (pre ++ (some (.backtraceArg n), sz) :: post) =
        generated_get_size (pre ++ (none, sz) :: post)) ∧
    (∀ (pre post :
        List (Option FieldArg × (List Nat → Except Error (List Nat × Nat))))
        (tw : List Nat → Except Error (List Nat × Nat)) (dst : List Nat),
      generated_try_write (pre ++ (some (.backtraceArg n), tw) :: post) dst =
        generated_try_write (pre ++ (none, tw) :: post) dst) := by
  intro n
  refine ⟨rfl, fun pre post sz => ?_, fun pre post tw dst => ?_⟩
  · unfold generated_get_size
    rw [List.foldl_append, List.foldl_append]
    rfl
  · have aux : ∀ (l : List (Option FieldArg ×
        (List Nat → Except Error (List Nat × Nat)))) (s : WStream),
      write_fields
        (l ++ (some (.backtraceArg n), tw) :: post) s =
      write_fields (l ++ (none, tw) :: post) s := by
      intro l
      induction l with
      | nil => intro s; rfl
      | cons f rest ih =>
        intro s
        simp only [List.cons_append, write_fields]
        cases write_stream f.2 (wincrement_by s (effective_pad f.1)) with
        | mk r s' => cases r with
          | error e => rfl
          | ok k => exact ih s'
    unfold generated_try_write
    rw [aux]

/-- C4: for every stream and every `EndianRead` codec, a successful
`read_stream_le/be` advances the cursor by exactly the `read_bytes` count of
the returned `ReadOutput` (not by the type's static size), and a failing one
leaves the stream untouched. -/
theorem C4_stream_advance : ∀ (α : Type) (c : EndianReadCodec α)
    (s : StreamState),
    (∀ out : ReadOutput α, read_le_with_output c s.data s.index = .ok out →
      read_stream_le c s = (.ok out.data, ⟨s.data, s.index + out.read_bytes⟩)) ∧
    (∀ e, read_le_with_output c s.data s.index = .error e →
      read_stream_le c s = (.error e, s)) ∧
    (∀ out : ReadOutput α, read_be_with_output c s.data s.index = .ok out →
      read_stream_be c s = (.ok out.data, ⟨s.data, s.index + out.read_bytes⟩)) ∧
    (∀ e, read_be_with_output c s.data s.index = .error e →
      read_stream_be c s = (.error e, s)) := by
  intro α c s
  unfold read_le_with_output read_be_with_output
  refine ⟨fun out h => ?_, fun e h => ?_, fun out h => ?_, fun e h => ?_⟩
  · unfold read_stream_le stream_read increment_by; rw [h]
  · unfold read_stream_le stream_read; rw [h]
  · unfold read_stream_be stream_read increment_by; rw [h]
  · unfold read_stream_be stream_read; rw [h]

/-- Witness for C4 at concrete inputs: a 4-byte little-endian read advances a
fresh stream's cursor to 4; the same read on a 2-byte buffer fails and leaves
the cursor at 0. -/
theorem C4_witness_stream_advance :
    read_stream_le u32Codec ⟨[0x11, 0x22, 0x33, 0x44, 0xaa], 0⟩ =
      (.ok 0x44332211, ⟨[0x11, 0x22, 0x33, 0x44, 0xaa], 4⟩) ∧
    read_stream_le u32Codec ⟨[0x11, 0x22], 0⟩ =
      (.error (.InvalidSize 4 0 2), ⟨[0x11, 0x22], 0⟩) := by
  constructor
  · exact (C4_stream_advance Nat u32Codec ⟨[0x11, 0x22, 0x33, 0x44, 0xaa], 0⟩).1
      ⟨0x44332211, 4⟩ (by decide)
  · exact (C4_stream_advance Nat u32Codec ⟨[0x11, 0x22], 0⟩).2.1
      (.InvalidSize 4 0 2) (by decide)

/-- C1 fails on the code: for the macro-generated composite `Test` (whose
`get_size()` is 5) and a destination of length `get_size() - 1 = 4`, the
write fails with `InvalidSize{wanted_size: 4, offset: 0, data_len: 4}` — the
`wanted_size` is the size of the first field that does not fit, not
`v.get_size()` as the claim states, because the generated write performs no
up-front `get_size` check. -/
theorem C1_cex_wanted_size :
    test_get_size = 5 ∧
    test_try_write true ⟨0xaa, 0xeeddccbb⟩ [0, 0, 0, 0] =
      .error (.InvalidSize 4 0 4) ∧
    test_try_write true ⟨0xaa, 0xeeddccbb⟩ [0, 0, 0, 0] ≠
      .error (.InvalidSize 5 0 4) := by
  refine ⟨by decide, by decide, by decide⟩

/-- For any value of the generated composite `Test` and any 4-byte
destination (one byte short of `get_size() = 5`), both generated writes fail
with the first unfitting field's `InvalidSize{4, 0, 4}`. -/
theorem test_write_short4 (le : Bool) (v : TestStruct) (dst : List Nat)
    (hlen : dst.length = 4) :
    test_try_write le v dst = .error (.InvalidSize 4 0 4) := by
  obtain ⟨a, b, c, d, rfl⟩ := list_len4 hlen
  cases le <;> rfl

/-- C1 (amended): a destination one byte shorter than `get_size()` fails with
`InvalidSize{offset: 0, data_len: len}`, but for macro-generated composites
the `wanted_size` reported is the size of the first field that does not fit
(the generated write has no up-front size check); the claim's
`wanted_size = v.get_size()` error is produced only by composites with an
explicit up-front check, such as the hand-written length-prefixed
container. -/
theorem C1_amended_write_size_error :
    (∀ (v : TestStruct) (dst : List Nat), dst.length = 4 →
      test_try_write true v dst = .error (.InvalidSize 4 0 4) ∧
      test_try_write false v dst = .error (.InvalidSize 4 0 4)) ∧
    (∀ (l dst : List Nat), dst.length + 1 = lc_get_size l →
      lc_try_write true l dst = .err (.InvalidSize (lc_get_size l) 0 dst.length) ∧
      lc_try_write false l dst =
        .err (.InvalidSize (lc_get_size l) 0 dst.length)) := by
  constructor
  · intro v dst hlen
    exact ⟨test_write_short4 true v dst hlen, test_write_short4 false v dst hlen⟩
  · intro l dst hlen
    constructor <;>
    · unfold lc_try_write
      rw [if_pos (by omega)]

/-- Witness for C1 (amended) at concrete inputs: the generated `Test` write
into 4 bytes and the hand-written one-element list write into 4 bytes (its
`get_size` is 5). -/
theorem C1_witness_write_size :
    test_try_write true ⟨1, 2⟩ [7, 7, 7, 7] = .error (.InvalidSize 4 0 4) ∧
    lc_try_write true [3] [0, 0, 0, 0] = .err (.InvalidSize 5 0 4) := by
  constructor
  · exact (C1_amended_write_size_error.1 ⟨1, 2⟩ [7, 7, 7, 7] (by decide)).1
  · have h := (C1_amended_write_size_error.2 [3] [0, 0, 0, 0] (by decide)).1
    rw [show lc_get_size [3] = 5 from by decide] at h
    exact h

/-- C3 fails on the code in its composite part: reading the generated
composite `Test` (which wants 5 bytes) at offset 0 from a 4-byte buffer
fails with `InvalidSize{wanted_size: 4, offset: 0, data_len: 4}` — neither
the claimed `{wanted_size: 5, offset: 0, data_len: 4}` (W is the failing
field's width, not the composite's) nor an absolute nested offset
(`offset: 1`, where the `u32` field actually sits): the generated composite
decoder propagates the inner field's slice-relative error unchanged. -/
theorem C3_cex_nested_offset :
    read_le testCodec [0xaa, 0xbb, 0xcc, 0xdd] 0 = .error (.InvalidSize 4 0 4) ∧
    read_le testCodec [0xaa, 0xbb, 0xcc, 0xdd] 0 ≠ .error (.InvalidSize 5 0 4) ∧
    read_le testCodec [0xaa, 0xbb, 0xcc, 0xdd] 0 ≠ .error (.InvalidSize 4 1 4) := by
  refine ⟨by decide, by decide, by decide⟩

/-- A width-`w` primitive read at `offset` of a too-short buffer, after the
reader's context addition. -/
theorem prim_read_short (w : Nat) (le : Bool) (data : List Nat) (offset : Nat)
    (hw : 0 < w) (h : data.length < offset + w) :
    read_with_output (prim_try_read w le) data offset =
      .error (.InvalidSize w offset data.length) := by
  unfold read_with_output
  rw [get_slice_at_offset_eq_drop]
  have hlen : (data.drop offset).length < w := by
    simp only [List.length_drop]; omega
  unfold prim_try_read
  rw [if_pos hlen]
  unfold add_error_context
  simp

/-- C3 (amended): `read_le(O)` re-raises any `InvalidSize` from
`T::try_read_le` with `O` added to its offset and `data_len` replaced by the
buffer's length, so a primitive of width `W` read at offset `O` of a buffer
of length `L < O + W` fails `InvalidSize{W, O, L}`; but a derive-generated
composite decoder propagates an inner field's error without adding the
field's own position, so nested errors stay relative to the composite's
slice (not absolute): a too-short `Test` read at offset 0 reports
`InvalidSize{4, 0, L}` even though its `u32` field sits at absolute
offset 1. -/
theorem C3_amended_offset_context :
    (∀ (w : Nat) (data : List Nat) (offset : Nat), 0 < w →
      data.length < offset + w →
      read_le (primCodec w) data offset =
        .error (.InvalidSize w offset data.length) ∧
      read_be (primCodec w) data offset =
        .error (.InvalidSize w offset data.length)) ∧
    (∀ (α : Type) (c : EndianReadCodec α) (data : List Nat) (offset w o d : Nat),
      c.try_read_le (get_slice_at_offset data offset) =
        .error (.InvalidSize w o d) →
      read_le c data offset = .error (.InvalidSize w (o + offset) data.length)) ∧
    (∀ bytes : List Nat, 1 ≤ bytes.length → bytes.length < 5 →
      read_le testCodec bytes 0 = .error (.InvalidSize 4 0 bytes.length)) := by
  refine ⟨fun w data offset hw h => ?_, fun α c data offset w o d h => ?_,
    fun bytes h1 h5 => ?_⟩
  · constructor
    · unfold read_le read_le_with_output primCodec
      rw [prim_read_short w true data offset hw h]
    · unfold read_be read_be_with_output primCodec
      rw [prim_read_short w false data offset hw h]
  · unfold read_le read_le_with_output read_with_output
    rw [h]
    rfl
  · have hr1 : prim_try_read 1 true bytes = .ok ⟨le_decode (bytes.take 1), 1⟩ := by
      unfold prim_try_read
      rw [if_neg (by omega)]
      rfl
    have hr4 : prim_try_read 4 true (bytes.drop 1) =
        .error (.InvalidSize 4 0 (bytes.length - 1)) := by
      unfold prim_try_read
      rw [if_pos (by simp only [List.length_drop]; omega)]
      simp
    have hinner : testCodec.try_read_le bytes =
        .error (.InvalidSize 4 0 (bytes.length - 1)) := by
      show test_try_read true bytes = _
      unfold test_try_read
      simp only [hr1]
      simp only [hr4]
    unfold read_le read_le_with_output read_with_output
    rw [get_slice_at_offset_eq_drop, List.drop_zero, hinner]
    unfold add_error_context
    simp

/-- Witness for C3 (amended) at concrete inputs: the primitive shape at a
positive offset, the context addition on a custom codec error (the
reader.rs `should_bubble_up_error_offsets` scenario), and the composite
relative shape. -/
theorem C3_witness_offset_context :
    read_le (primCodec 4) [1, 2] 1 = .error (.InvalidSize 4 1 2) ∧
    read_le (⟨fun _ => .error (.InvalidSize 8 1 0),
        fun _ => .error (.InvalidRead "x")⟩ : EndianReadCodec Nat)
      [] 2 = .error (.InvalidSize 8 3 0) ∧
    read_le testCodec [0xaa, 0xbb] 0 = .error (.InvalidSize 4 0 2) := by
  refine ⟨(C3_amended_offset_context.1 4 [1, 2] 1 (by decide) (by decide)).1, ?_, ?_⟩
  · exact C3_amended_offset_context.2.1 Nat
      ⟨fun _ => .error (.InvalidSize 8 1 0), fun _ => .error (.InvalidRead "x")⟩
      [] 2 8 1 0 rfl
  · exact C3_amended_offset_context.2.2 [0xaa, 0xbb] (by decide) (by decide)

/-- C9: for a trivially-transmutable type of width `tSize` and alignment
`tAlign`, at an offset with at least `tSize` bytes available,
`get_transmutable` (and hence `read`) fails with exactly
`InvalidAlignment{wanted_size: tSize, source_size: tSize, source_offset:
offset}` whenever the selected slice's address `base + offset` is not a
multiple of `tAlign`, and otherwise returns the value at that offset. -/
theorem C9_alignment : ∀ (tAlign tSize base : Nat) (data : List Nat)
    (offset : Nat), 0 < tAlign → data.length < USIZE →
    offset + tSize ≤ data.length →
    ((base + offset) % tAlign ≠ 0 →
      get_transmutable tAlign tSize base data offset =
        .err (.InvalidAlignment tSize tSize offset) ∧
      read_copy tAlign tSize base data offset =
        .err (.InvalidAlignment tSize tSize offset)) ∧
    ((base + offset) % tAlign = 0 →
      get_transmutable tAlign tSize base data offset =
        .ok ((data.drop offset).take tSize) ∧
      read_copy tAlign tSize base data offset =
        .ok ((data.drop offset).take tSize)) := by
  intro tAlign tSize base data offset htal hfit hsz
  have hmod : (offset + tSize) % USIZE = offset + tSize :=
    Nat.mod_eq_of_lt (by omega)
  have hslice : get_sized_slice tSize data offset =
      .ok ((data.drop offset).take tSize) := by
    unfold get_sized_slice
    simp only [hmod]
    rw [if_neg (by omega), if_pos (by omega)]
    simp
  have hlen : ((data.drop offset).take tSize).length = tSize := by
    simp only [List.length_take, List.length_drop]
    omega
  constructor
  · intro hmis
    have h : get_transmutable tAlign tSize base data offset =
        .err (.InvalidAlignment tSize tSize offset) := by
      unfold get_transmutable
      simp only [hslice]
      rw [if_neg hmis, hlen]
    exact ⟨h, h⟩
  · intro hal
    have h : get_transmutable tAlign tSize base data offset =
        .ok ((data.drop offset).take tSize) := by
      unfold get_transmutable
      simp only [hslice]
      rw [if_pos hal]
    exact ⟨h, h⟩

/-- Witness for C9 at concrete inputs: a 4-byte 4-aligned type on an aligned
8-byte buffer — offset 3 is misaligned and yields
`InvalidAlignment{4, 4, 3}` (the reader.rs
`should_return_error_if_alignment_is_invalid` scenario), offset 4 is aligned
and yields the 4-byte slice. -/
theorem C9_witness_alignment :
    get_transmutable 4 4 0 [1, 2, 3, 4, 5, 6, 7, 8] 3 =
      .err (.InvalidAlignment 4 4 3) ∧
    get_transmutable 4 4 0 [1, 2, 3, 4, 5, 6, 7, 8] 4 = .ok [5, 6, 7, 8] := by
  constructor
  · exact ((C9_alignment 4 4 0 [1, 2, 3, 4, 5, 6, 7, 8] 3 (by decide)
      (by decide) (by decide)).1 (by decide)).1
  · have h := ((C9_alignment 4 4 0 [1, 2, 3, 4, 5, 6, 7, 8] 4 (by decide)
      (by decide) (by decide)).2 (by decide)).1
    simpa using h

/-- The stream array loop agrees with the plain sequential array read: it
produces the same elements or the same first error, and on success its
accumulated count is the cumulative consumed-byte count. -/
theorem array_loop_core_eq (r : List Nat → Except Error (ReadOutput α))
    (data : List Nat) (index : Nat) : ∀ (n acc : Nat),
    array_loop_core r data index n acc =
      match array_read_core r data n (index + acc) with
      | .error e => .error e
      | .ok l => .ok (l, acc + array_consumed r data n (index + acc)) := by
  intro n
  induction n with
  | zero =>
    intro acc
    simp [array_loop_core, array_read_core, array_consumed]
  | succ m ih =>
    intro acc
    simp only [array_loop_core, array_read_core, array_consumed]
    cases h : read_with_output r data (index + acc) with
    | error e => simp
    | ok out =>
      simp only []
      rw [ih (acc + out.read_bytes)]
      have harith : index + (acc + out.read_bytes) = index + acc + out.read_bytes := by
        omega
      rw [harith]
      cases array_read_core r data m (index + acc + out.read_bytes) with
      | error e => simp
      | ok rest =>
        simp only []
        have : acc + (out.read_bytes + array_consumed r data m (index + acc + out.read_bytes)) =
            acc + out.read_bytes + array_consumed r data m (index + acc + out.read_bytes) := by
          omega
        rw [this]

/-- A successful sequential array read yields exactly `n` elements. -/
theorem array_read_core_length (r : List Nat → Except Error (ReadOutput α))
    (data : List Nat) : ∀ (n offset : Nat) (l : List α),
    array_read_core r data n offset = .ok l → l.length = n := by
  intro n
  induction n with
  | zero =>
    intro offset l h
    unfold array_read_core at h
    cases h
    rfl
  | succ m ih =>
    intro offset l h
    unfold array_read_core at h
    cases h1 : read_with_output r data offset with
    | error e => rw [h1] at h; cases h
    | ok out =>
      rw [h1] at h
      simp only [] at h
      cases h2 : array_read_core r data m (offset + out.read_bytes) with
      | error e => rw [h2] at h; cases h
      | ok rest =>
        rw [h2] at h
        cases h
        simp [ih (offset + out.read_bytes) rest h2]

theorem elem_offset_shift (r : List Nat → Except Error (ReadOutput α))
    (data : List Nat) (offset : Nat) : ∀ k : Nat,
    elem_offset r data offset (k + 1) =
      elem_offset r data (elem_step r data offset) k := by
  intro k
  induction k with
  | zero => rfl
  | succ m ih =>
    show elem_step r data (elem_offset r data offset (m + 1)) = _
    rw [ih]
    rfl

/-- If the elements before the `k`-th all read successfully and the `k`-th
fails with `e`, the whole sequential array read of any `n > k` elements
returns `e`. -/
theorem array_first_fail (r : List Nat → Except Error (ReadOutput α))
    (data : List Nat) : ∀ (k n offset : Nat) (e : Error), k < n →
    (∀ j, j < k → ∃ out,
      read_with_output r data (elem_offset r data offset j) = .ok out) →
    read_with_output r data (elem_offset r data offset k) = .error e →
    array_read_core r data n offset = .error e := by
  intro k
  induction k with
  | zero =>
    intro n offset e hkn hprev herr
    obtain ⟨m, rfl⟩ : ∃ m, n = m + 1 := ⟨n - 1, by omega⟩
    unfold array_read_core
    rw [show elem_offset r data offset 0 = offset from rfl] at herr
    rw [herr]
  | succ k ih =>
    intro n offset e hkn hprev herr
    obtain ⟨m, rfl⟩ : ∃ m, n = m + 1 := ⟨n - 1, by omega⟩
    obtain ⟨out, hout⟩ := hprev 0 (by omega)
    rw [show elem_offset r data offset 0 = offset from rfl] at hout
    have hstep : elem_step r data offset = offset + out.read_bytes := by
      unfold elem_step
      rw [hout]
    have hrec : array_read_core r data m (offset + out.read_bytes) = .error e := by
      apply ih m (offset + out.read_bytes) e (by omega)
      · intro j hj
        obtain ⟨o2, ho2⟩ := hprev (j + 1) (by omega)
        rw [elem_offset_shift, hstep] at ho2
        exact ⟨o2, ho2⟩
      · rw [← hstep, ← elem_offset_shift]
        exact herr
    unfold array_read_core
    rw [hout]
    simp only []
    rw [hrec]

/-- C5: `read_array_le/be` decode `SIZE` elements sequentially, the working
offset advancing by each element's reported consumed count; on the first
failing element the whole call returns exactly that element's error and no
array; the stream variants return the same elements or the same error, and
they advance the cursor only when all elements succeed — by the cumulative
consumed count — leaving it unchanged on any mid-run failure. -/
theorem C5_array_reads : ∀ (α : Type) (c : EndianReadCodec α) (n : Nat)
    (s : StreamState),
    (∀ (e : Error) (s₂ : StreamState),
      read_array_stream_le c n s = (.error e, s₂) →
      s₂ = s ∧ read_array_le c s.data n s.index = .error e) ∧
    (∀ (arr : List α) (s₂ : StreamState),
      read_array_stream_le c n s = (.ok arr, s₂) →
      read_array_le c s.data n s.index = .ok arr ∧ arr.length = n ∧
      s₂ = ⟨s.data, s.index + array_consumed c.try_read_le s.data n s.index⟩) ∧
    (∀ (e : Error) (s₂ : StreamState),
      read_array_stream_be c n s = (.error e, s₂) →
      s₂ = s ∧ read_array_be c s.data n s.index = .error e) ∧
    (∀ (arr : List α) (s₂ : StreamState),
      read_array_stream_be c n s = (.ok arr, s₂) →
      read_array_be c s.data n s.index = .ok arr ∧ arr.length = n ∧
      s₂ = ⟨s.data, s.index + array_consumed c.try_read_be s.data n s.index⟩) ∧
    (∀ (k : Nat) (e : Error), k < n →
      (∀ j, j < k → ∃ out, read_with_output c.try_read_le s.data
        (elem_offset c.try_read_le s.data s.index j) = .ok out) →
      read_with_output c.try_read_le s.data
        (elem_offset c.try_read_le s.data s.index k) = .error e →
      read_array_le c s.data n s.index = .error e) := by
  intro α c n s
  have key : ∀ (r : List Nat → Except Error (ReadOutput α)),
      array_stream_core r n s =
        match array_read_core r s.data n s.index with
        | .error e => (.error e, s)
        | .ok l => (.ok l, ⟨s.data, s.index + array_consumed r s.data n s.index⟩) := by
    intro r
    unfold array_stream_core
    rw [array_loop_core_eq]
    rw [show s.index + 0 = s.index from by omega]
    cases array_read_core r s.data n s.index with
    | error e => rfl
    | ok l =>
      simp only []
      unfold increment_by
      rw [show 0 + array_consumed r s.data n s.index =
        array_consumed r s.data n s.index from by omega]
  refine ⟨fun e s₂ h => ?_, fun arr s₂ h => ?_, fun e s₂ h => ?_,
    fun arr s₂ h => ?_, fun k e hkn hprev herr => ?_⟩
  · unfold read_array_stream_le at h
    rw [key c.try_read_le] at h
    unfold read_array_le
    cases h1 : array_read_core c.try_read_le s.data n s.index with
    | error e2 =>
      simp only [h1, Prod.mk.injEq, Except.error.injEq] at h
      exact ⟨h.2.symm, by rw [h.1]⟩
    | ok l => simp [h1] at h
  · unfold read_array_stream_le at h
    rw [key c.try_read_le] at h
    unfold read_array_le
    cases h1 : array_read_core c.try_read_le s.data n s.index with
    | error e2 => simp [h1] at h
    | ok l =>
      simp only [h1, Prod.mk.injEq, Except.ok.injEq] at h
      obtain ⟨rfl, h3⟩ := h
      exact ⟨rfl, array_read_core_length c.try_read_le s.data n s.index l h1,
        h3.symm⟩
  · unfold read_array_stream_be at h
    rw [key c.try_read_be] at h
    unfold read_array_be
    cases h1 : array_read_core c.try_read_be s.data n s.index with
    | error e2 =>
      simp only [h1, Prod.mk.injEq, Except.error.injEq] at h
      exact ⟨h.2.symm, by rw [h.1]⟩
    | ok l => simp [h1] at h
  · unfold read_array_stream_be at h
    rw [key c.try_read_be] at h
    unfold read_array_be
    cases h1 : array_read_core c.try_read_be s.data n s.index with
    | error e2 => simp [h1] at h
    | ok l =>
      simp only [h1, Prod.mk.injEq, Except.ok.injEq] at h
      obtain ⟨rfl, h3⟩ := h
      exact ⟨rfl, array_read_core_length c.try_read_be s.data n s.index l h1,
        h3.symm⟩
  · exact array_first_fail c.try_read_le s.data k n s.index e hkn hprev herr

/-- Witness for C5 at concrete inputs: a 2-element `u16` array read on 4
bytes succeeds with both elements, a 2-element read on 3 bytes fails with
the second element's error and an unchanged stream, and the first-failure
conjunct reproduces that error through the element-offset chain. -/
theorem C5_witness_array_reads :
    read_array_le (primCodec 2) [1, 2, 3, 4] 2 0 = .ok [0x0201, 0x0403] ∧
    read_array_le (primCodec 2) [1, 2, 3] 2 0 = .error (.InvalidSize 2 2 3) ∧
    read_array_le (primCodec 2) [9, 8, 7] 2 0 = .error (.InvalidSize 2 2 3) := by
  refine ⟨?_, ?_, ?_⟩
  · exact ((C5_array_reads Nat (primCodec 2) 2 ⟨[1, 2, 3, 4], 0⟩).2.1
      [0x0201, 0x0403] ⟨[1, 2, 3, 4], 4⟩ (by decide)).1
  · exact ((C5_array_reads Nat (primCodec 2) 2 ⟨[1, 2, 3], 0⟩).1
      (.InvalidSize 2 2 3) ⟨[1, 2, 3], 0⟩ (by decide)).2
  · apply (C5_array_reads Nat (primCodec 2) 2 ⟨[9, 8, 7], 0⟩).2.2.2.2 1
      (.InvalidSize 2 2 3) (by omega)
    · intro j hj
      have hj0 : j = 0 := by omega
      subst hj0
      exact ⟨⟨0x0809, 2⟩, by decide⟩
    · decide

/-- A successful generated `Test` write: the two fields' encodings land at
offsets 0 and 1, the tail is untouched, and 5 bytes are written. -/
theorem test_write_ok (le : Bool) (v : TestStruct) (dst : List Nat)
    (h : 5 ≤ dst.length) :
    test_try_write le v dst =
      .ok (prim_enc 1 le v.first ++ prim_enc 4 le v.second ++ dst.drop 5, 5) := by
  have hw1 : write_stream (prim_try_write 1 le v.first) ⟨dst, 0⟩ =
      (.ok 1, ⟨prim_enc 1 le v.first ++ dst.drop 1, 1⟩) := by
    have hp : prim_try_write 1 le v.first ((⟨dst, 0⟩ : WStream).data.drop
        (⟨dst, 0⟩ : WStream).index) =
        .ok (prim_enc 1 le v.first ++ dst.drop 1, 1) := by
      show prim_try_write 1 le v.first (dst.drop 0) = _
      rw [List.drop_zero]
      exact prim_write_ok 1 le v.first dst (by omega)
    rw [write_stream_ok _ _ _ _ hp]
    rfl
  have hdata1 : (prim_enc 1 le v.first ++ dst.drop 1).drop 1 = dst.drop 1 :=
    List.drop_left' (prim_enc_length 1 le v.first)
  have htake1 : (prim_enc 1 le v.first ++ dst.drop 1).take 1 =
      prim_enc 1 le v.first :=
    List.take_left' (prim_enc_length 1 le v.first)
  have hw2 : write_stream (prim_try_write 4 le v.second)
      ⟨prim_enc 1 le v.first ++ dst.drop 1, 1⟩ =
      (.ok 4, ⟨prim_enc 1 le v.first ++ prim_enc 4 le v.second ++ dst.drop 5, 5⟩) := by
    have hp : prim_try_write 4 le v.second
        ((prim_enc 1 le v.first ++ dst.drop 1).drop 1) =
        .ok (prim_enc 4 le v.second ++ dst.drop 5, 4) := by
      rw [hdata1]
      have := prim_write_ok 4 le v.second (dst.drop 1)
        (by simp only [List.length_drop]; omega)
      rw [this]
      rw [List.drop_drop]
    rw [write_stream_ok _ _ _ _ hp]
    rw [htake1]
    simp [List.append_assoc]
  unfold test_try_write generated_try_write write_fields
  have hpad : wincrement_by (⟨dst, 0⟩ : WStream)
      (effective_pad (none : Option FieldArg)) = (⟨dst, 0⟩ : WStream) := rfl
  rw [hpad, hw1]
  simp only []
  unfold write_fields
  have hpad2 : wincrement_by (⟨prim_enc 1 le v.first ++ dst.drop 1, 1⟩ : WStream)
      (effective_pad (none : Option FieldArg)) =
      (⟨prim_enc 1 le v.first ++ dst.drop 1, 1⟩ : WStream) := rfl
  rw [hpad2, hw2]
  rfl

/-- Reading back the bytes a `Test` write produced yields the two fields
reduced mod their widths. -/
theorem test_read_enc (le : Bool) (f sec : Nat) (rest : List Nat) :
    test_try_read le (prim_enc 1 le f ++ prim_enc 4 le sec ++ rest) =
      .ok ⟨⟨f % 256, sec % 256 ^ 4⟩, 5⟩ := by
  unfold test_try_read
  rw [List.append_assoc]
  simp only [prim_read_enc 1 le f (prim_enc 4 le sec ++ rest)]
  rw [List.drop_left' (prim_enc_length 1 le f)]
  simp only [prim_read_enc 4 le sec rest]
  rw [pow_one]

/-- A successful item-loop write at a stream whose index is the length of the
prefix already written: the items' encodings are laid out consecutively and
the index advances by 4 bytes per item. -/
theorem lc_write_items_ok (le : Bool) : ∀ (l pre rest : List Nat),
    4 * l.length ≤ rest.length →
    lc_write_items le l ⟨pre ++ rest, pre.length⟩ =
      .ok ⟨pre ++ items_enc le l ++ rest.drop (4 * l.length),
        pre.length + 4 * l.length⟩ := by
  intro l
  induction l with
  | nil =>
    intro pre rest h
    unfold lc_write_items
    simp [items_enc_nil]
  | cons x xs ih =>
    intro pre rest h
    have hdrop : (pre ++ rest).drop pre.length = rest := List.drop_left pre rest
    have htake : (pre ++ rest).take pre.length = pre := List.take_left pre rest
    have hlen : 4 ≤ rest.length := by
      simp only [List.length_cons] at h
      omega
    have hp : prim_try_write 4 le x ((pre ++ rest).drop pre.length) =
        .ok (prim_enc 4 le x ++ rest.drop 4, 4) := by
      rw [hdrop]
      exact prim_write_ok 4 le x rest hlen
    unfold lc_write_items
    rw [write_stream_ok _ _ _ _ hp]
    simp only []
    rw [htake]
    have hre : pre ++ (prim_enc 4 le x ++ rest.drop 4) =
        (pre ++ prim_enc 4 le x) ++ rest.drop 4 := by
      rw [List.append_assoc]
    have hidx : pre.length + 4 = (pre ++ prim_enc 4 le x).length := by
      simp [prim_enc_length]
    rw [hre, hidx]
    rw [ih (pre ++ prim_enc 4 le x) (rest.drop 4)
      (by simp only [List.length_drop, List.length_cons] at h ⊢; omega)]
    have harr : (pre ++ prim_enc 4 le x) ++ items_enc le xs ++
        (rest.drop 4).drop (4 * xs.length) =
        pre ++ items_enc le (x :: xs) ++ rest.drop (4 * (x :: xs).length) := by
      rw [items_enc_cons]
      rw [List.drop_drop]
      simp only [List.append_assoc, List.length_cons]
      have h44 : 4 + 4 * xs.length = 4 * (xs.length + 1) := by omega
      rw [h44]
    rw [harr]
    have hidx2 : (pre ++ prim_enc 4 le x).length + 4 * xs.length =
        pre.length + 4 * (x :: xs).length := by
      simp [prim_enc_length]
      omega
    rw [hidx2]

/-- A successful item-loop read over the items' concatenated encodings: when
the bytes from the index on start with the encodings of the (in-range) items,
each item is recovered and the index advances by 4 bytes per item. -/
theorem lc_read_items_ok (le : Bool) : ∀ (l : List Nat),
    (∀ x ∈ l, x < 256 ^ 4) → ∀ (D : List Nat) (i : Nat) (rest : List Nat),
    D.drop i = items_enc le l ++ rest →
    lc_read_items le l.length ⟨D, i⟩ = .ok (l, ⟨D, i + 4 * l.length⟩) := by
  intro l
  induction l with
  | nil =>
    intro hb D i rest hD
    unfold lc_read_items
    simp
  | cons x xs ih =>
    intro hb D i rest hD
    have hx : x < 256 ^ 4 := hb x (by simp)
    have hD' : D.drop i = prim_enc 4 le x ++ (items_enc le xs ++ rest) := by
      rw [hD, items_enc_cons, List.append_assoc]
    have hread : read_with_output (prim_try_read 4 le) D i = .ok ⟨x, 4⟩ := by
      unfold read_with_output
      rw [get_slice_at_offset_eq_drop, hD']
      rw [prim_read_enc 4 le x (items_enc le xs ++ rest)]
      rw [add_error_context_ok, Nat.mod_eq_of_lt hx]
    have hstream : stream_read (prim_try_read 4 le) ⟨D, i⟩ =
        (.ok x, ⟨D, i + 4⟩) := by
      unfold stream_read increment_by
      rw [hread]
    have hnext : D.drop (i + 4) = items_enc le xs ++ rest := by
      rw [← List.drop_drop, hD', List.drop_left' (prim_enc_length 4 le x)]
    have hrec := ih (fun y hy => hb y (by simp [hy])) D (i + 4) rest hnext
    show lc_read_items le (xs.length + 1) ⟨D, i⟩ = _
    unfold lc_read_items
    rw [hstream]
    simp only []
    rw [hrec]
    simp only []
    have harith : i + 4 + 4 * xs.length = i + 4 * (x :: xs).length := by
      simp only [List.length_cons]
      omega
    rw [harith]

/-- A one-byte stream write at index 0. -/
theorem write_first (le : Bool) (v : Nat) (dst : List Nat)
    (h : 1 ≤ dst.length) :
    write_stream (prim_try_write 1 le v) ⟨dst, 0⟩ =
      (.ok 1, ⟨prim_enc 1 le v ++ dst.drop 1, 1⟩) := by
  have hp : prim_try_write 1 le v ((⟨dst, 0⟩ : WStream).data.drop
      (⟨dst, 0⟩ : WStream).index) = .ok (prim_enc 1 le v ++ dst.drop 1, 1) := by
    show prim_try_write 1 le v (dst.drop 0) = _
    rw [List.drop_zero]
    exact prim_write_ok 1 le v dst h
  rw [write_stream_ok _ _ _ _ hp]
  rfl

/-- A generated `Test` write into fewer than 5 bytes fails. -/
theorem test_write_err (le : Bool) (v : TestStruct) (dst : List Nat)
    (h : dst.length < 5) : ∃ e, test_try_write le v dst = .error e := by
  have hpad : wincrement_by (⟨dst, 0⟩ : WStream)
      (effective_pad (none : Option FieldArg)) = (⟨dst, 0⟩ : WStream) := rfl
  by_cases h1 : dst.length < 1
  · have hp : prim_try_write 1 le v.first ((⟨dst, 0⟩ : WStream).data.drop
        (⟨dst, 0⟩ : WStream).index) = .error (.InvalidSize 1 0 dst.length) := by
      show prim_try_write 1 le v.first (dst.drop 0) = _
      rw [List.drop_zero]
      unfold prim_try_write
      rw [if_pos h1]
    refine ⟨.InvalidSize 1 0 dst.length, ?_⟩
    unfold test_try_write generated_try_write write_fields
    rw [hpad, write_stream_err_size _ _ _ _ _ hp]
  · have hw1 := write_first le v.first dst (by omega)
    have hpad2 : wincrement_by
        (⟨prim_enc 1 le v.first ++ dst.drop 1, 1⟩ : WStream)
        (effective_pad (none : Option FieldArg)) =
        (⟨prim_enc 1 le v.first ++ dst.drop 1, 1⟩ : WStream) := rfl
    have hp2 : prim_try_write 4 le v.second
        ((⟨prim_enc 1 le v.first ++ dst.drop 1, 1⟩ : WStream).data.drop
          (⟨prim_enc 1 le v.first ++ dst.drop 1, 1⟩ : WStream).index) =
        .error (.InvalidSize 4 0 (dst.drop 1).length) := by
      show prim_try_write 4 le v.second
        ((prim_enc 1 le v.first ++ dst.drop 1).drop 1) = _
      rw [List.drop_left' (prim_enc_length 1 le v.first)]
      unfold prim_try_write
      rw [if_pos (by simp only [List.length_drop]; omega)]
    refine ⟨.InvalidSize 4 0 (prim_enc 1 le v.first ++ dst.drop 1).length, ?_⟩
    unfold test_try_write generated_try_write write_fields
    rw [hpad, hw1]
    simp only []
    unfold write_fields
    rw [hpad2, write_stream_err_size _ _ _ _ _ hp2]

/-- C7: writing a value and then decoding the written buffer yields the value
back, in both byte orders, for primitives of any width, for the generated
composite `Test`, and for the dynamically sized length-prefixed `u32`
collection — whose encoding moreover occupies exactly
`1 + Σ(element sizes) = get_size` bytes, empty or not. -/
theorem C7_round_trip :
    (∀ (w : Nat) (le : Bool) (v : Nat) (dst : List Nat)
        (out : List Nat × Nat),
      prim_try_write w le v dst = .ok out → v < 256 ^ w →
      prim_try_read w le out.1 = .ok ⟨v, w⟩) ∧
    (∀ (le : Bool) (v : TestStruct) (dst : List Nat) (out : List Nat × Nat),
      test_try_write le v dst = .ok out → v.first < 256 → v.second < 256 ^ 4 →
      test_try_read le out.1 = .ok ⟨v, 5⟩ ∧ out.2 = test_get_size) ∧
    (∀ (le : Bool) (l dst : List Nat) (out : List Nat × Nat),
      lc_try_write le l dst = .ok out → (∀ x ∈ l, x < 256 ^ 4) →
      lc_try_read le out.1 = .ok ⟨l, lc_get_size l⟩ ∧ out.2 = lc_get_size l) ∧
    (∀ l : List Nat, lc_get_size l = 1 + 4 * l.length) := by
  refine ⟨?_, ?_, ?_, fun l => by rw [lc_get_size_eq]; omega⟩
  · intro w le v dst out h hv
    unfold prim_try_write at h
    split at h
    · cases h
    · injection h with h'
      rw [← h']
      show prim_try_read w le (prim_enc w le v ++ dst.drop w) = _
      rw [prim_read_enc, Nat.mod_eq_of_lt hv]
  · intro le v dst out h hf hs
    by_cases h5 : 5 ≤ dst.length
    · rw [test_write_ok le v dst h5] at h
      injection h with h'
      rw [← h']
      constructor
      · show test_try_read le
          (prim_enc 1 le v.first ++ prim_enc 4 le v.second ++ dst.drop 5) = _
        rw [test_read_enc, Nat.mod_eq_of_lt hf, Nat.mod_eq_of_lt hs]
      · rfl
    · obtain ⟨e, he⟩ := test_write_err le v dst (by omega)
      rw [he] at h
      cases h
  · intro le l dst out h hb
    by_cases hlen : dst.length < lc_get_size l
    · unfold lc_try_write at h
      rw [if_pos hlen] at h
      cases h
    by_cases hcnt : 255 < l.length
    · unfold lc_try_write at h
      rw [if_neg hlen, if_pos hcnt] at h
      cases h
    rw [lc_get_size_eq] at hlen
    unfold lc_try_write at h
    rw [if_neg (by rw [lc_get_size_eq]; omega), if_neg hcnt] at h
    have hw0 := write_first le l.length dst (by omega)
    simp only [hw0] at h
    have hitems := lc_write_items_ok le l (prim_enc 1 le l.length)
      (dst.drop 1) (by simp only [List.length_drop]; omega)
    rw [prim_enc_length] at hitems
    simp only [hitems] at h
    injection h with h'
    rw [← h']
    have hcnt' : l.length < 256 := by omega
    have hread : lc_try_read le (prim_enc 1 le l.length ++ items_enc le l ++
        (dst.drop 1).drop (4 * l.length)) = .ok ⟨l, lc_get_size l⟩ := by
      rw [prim_enc_one, List.singleton_append, List.cons_append]
      unfold lc_try_read
      rw [if_neg (by simp)]
      have hid : lc_read_items le l.length
          ⟨items_enc le l ++ (dst.drop 1).drop (4 * l.length), 0⟩ =
          .ok (l, ⟨items_enc le l ++ (dst.drop 1).drop (4 * l.length),
            0 + 4 * l.length⟩) := by
        have hD : (items_enc le l ++ (dst.drop 1).drop (4 * l.length)).drop 0 =
            items_enc le l ++ (dst.drop 1).drop (4 * l.length) :=
          List.drop_zero _
        have := lc_read_items_ok le l hb
          (items_enc le l ++ (dst.drop 1).drop (4 * l.length)) 0
          ((dst.drop 1).drop (4 * l.length)) hD
        exact this
      have hhd : (l.length % 256 :: (items_enc le l ++
          (dst.drop 1).drop (4 * l.length))).headD 0 = l.length := by
        simp [Nat.mod_eq_of_lt hcnt']
      rw [hhd]
      rw [show (l.length % 256 :: (items_enc le l ++
          (dst.drop 1).drop (4 * l.length))).drop 1 =
          items_enc le l ++ (dst.drop 1).drop (4 * l.length) from rfl]
      simp only [hid]
      rw [lc_get_size_eq]
      simp
    exact ⟨hread, by rw [lc_get_size_eq]; omega⟩

/-- Witness for C7 at concrete inputs: reading back a written `Test`, a
written big-endian `u16`, and a written two-element `u32` list recovers the
original values. -/
theorem C7_witness_round_trip :
    test_try_read true [0xaa, 0xbb, 0xcc, 0xdd, 0xee] =
      .ok ⟨⟨0xaa, 0xeeddccbb⟩, 5⟩ ∧
    prim_try_read 2 false [0x12, 0x34] = .ok ⟨0x1234, 2⟩ ∧
    lc_try_read true [0x02, 0x11, 0x22, 0x33, 0x44, 0xaa, 0xbb, 0xcc, 0xdd] =
      .ok ⟨[0x44332211, 0xddccbbaa], 9⟩ := by
  refine ⟨?_, ?_, ?_⟩
  · exact (C7_round_trip.2.1 true ⟨0xaa, 0xeeddccbb⟩ [0, 0, 0, 0, 0]
      ([0xaa, 0xbb, 0xcc, 0xdd, 0xee], 5) (by decide) (by decide) (by decide)).1
  · exact C7_round_trip.1 2 false 0x1234 [0, 0] ([0x12, 0x34], 2)
      (by decide) (by decide)
  · have hb : ∀ x ∈ [0x44332211, 0xddccbbaa], x < 256 ^ 4 := by
      intro x hx
      rcases List.mem_cons.mp hx with h | hx2
      · subst h; decide
      rcases List.mem_cons.mp hx2 with h | hx3
      · subst h; decide
      · cases hx3
    have h := (C7_round_trip.2.2.1 true [0x44332211, 0xddccbbaa]
      [0, 0, 0, 0, 0, 0, 0, 0, 0]
      ([0x02, 0x11, 0x22, 0x33, 0x44, 0xaa, 0xbb, 0xcc, 0xdd], 9)
      (by decide) hb).1
    rw [show lc_get_size [0x44332211, 0xddccbbaa] = 9 from by decide] at h
    exact h

end NoStd
